import Mathlib

/-!
Verification of the agent-chat coordination core (connection registry,
rate limiter, blocklist gate, message router, presence reconciler).

The definitions below are a shallow embedding of the TypeScript source:
JavaScript `Map` objects are modelled as association lists with
insertion-order semantics (`set` on an existing key replaces in place,
on a fresh key appends), timestamps (`Date.now()`) are naturals in
milliseconds, and the fallible Supabase calls are modelled by an explicit
`persistOk` flag on the message handlers.
-/

namespace AgentChat

/-- Lookup in an association list (JS `Map.get`): first entry with the key. -/
def alLookup {α β : Type} [DecidableEq α] (l : List (α × β)) (k : α) : Option β :=
  match l with
  | [] => none
  | (k2, v) :: rest => if k2 = k then some v else alLookup rest k

/-- Insert into an association list (JS `Map.set`): replace the first entry
with the key in place, or append at the end when the key is fresh.  This
matches the insertion-order iteration semantics of a JS `Map`. -/
def alInsert {α β : Type} [DecidableEq α] (l : List (α × β)) (k : α) (v : β) :
    List (α × β) :=
  match l with
  | [] => [(k, v)]
  | (k2, v2) :: rest => if k2 = k then (k, v) :: rest else (k2, v2) :: alInsert rest k v

/-- Delete from an association list (JS `Map.delete`): remove the first entry
with the key. -/
def alErase {α β : Type} [DecidableEq α] (l : List (α × β)) (k : α) : List (α × β) :=
  match l with
  | [] => []
  | (k2, v2) :: rest => if k2 = k then rest else (k2, v2) :: alErase rest k

theorem alLookup_alInsert_self {α β : Type} [DecidableEq α]
    (l : List (α × β)) (k : α) (v : β) : alLookup (alInsert l k v) k = some v := by
  induction l with
  | nil => simp [alInsert, alLookup]
  | cons hd tl ih =>
    obtain ⟨k2, v2⟩ := hd
    by_cases h : k2 = k
    · simp [alInsert, h, alLookup]
    · simp [alInsert, h, alLookup, ih]

theorem alLookup_alInsert_ne {α β : Type} [DecidableEq α]
    (l : List (α × β)) (k k2 : α) (v : β) (h : k2 ≠ k) :
    alLookup (alInsert l k v) k2 = alLookup l k2 := by
  induction l with
  | nil => simp [alInsert, alLookup, Ne.symm h]
  | cons hd tl ih =>
    obtain ⟨k3, v3⟩ := hd
    by_cases h3 : k3 = k
    · subst h3
      simp [alInsert, alLookup, Ne.symm h]
    · simp only [alInsert, if_neg h3, alLookup]
      by_cases h4 : k3 = k2
      · simp [h4]
      · simp [h4, ih]

theorem alInsert_self_of_lookup {α β : Type} [DecidableEq α]
    (l : List (α × β)) (k : α) (v : β) (h : alLookup l k = some v) :
    alInsert l k v = l := by
  induction l with
  | nil => simp [alLookup] at h
  | cons hd tl ih =>
    obtain ⟨k2, v2⟩ := hd
    by_cases h2 : k2 = k
    · subst h2
      simp [alLookup] at h
      simp [alInsert, h]
    · simp [alLookup, h2] at h
      simp [alInsert, h2, ih h]

theorem mem_alInsert {α β : Type} [DecidableEq α]
    (l : List (α × β)) (k : α) (v : β) (p : α × β) (h : p ∈ alInsert l k v) :
    p = (k, v) ∨ p ∈ l := by
  induction l with
  | nil => simpa [alInsert] using h
  | cons hd tl ih =>
    obtain ⟨k2, v2⟩ := hd
    by_cases h2 : k2 = k
    · simp [alInsert, h2] at h
      rcases h with h | h
      · exact Or.inl (by simp [h])
      · exact Or.inr (by simp [h])
    · simp [alInsert, h2] at h
      rcases h with h | h
      · exact Or.inr (by simp [h])
      · rcases ih h with h3 | h3
        · exact Or.inl h3
        · exact Or.inr (by simp [h3])

theorem mem_of_alLookup_eq_some {α β : Type} [DecidableEq α]
    (l : List (α × β)) (k : α) (v : β) (h : alLookup l k = some v) : (k, v) ∈ l := by
  induction l with
  | nil => simp [alLookup] at h
  | cons hd tl ih =>
    obtain ⟨k2, v2⟩ := hd
    by_cases h2 : k2 = k
    · subst h2
      simp [alLookup] at h
      simp [h]
    · simp [alLookup, h2] at h
      simp [ih h]

/-- Keys of an association list. -/
def alKeys {α β : Type} (l : List (α × β)) : List α := l.map Prod.fst

theorem alLookup_eq_none_iff {α β : Type} [DecidableEq α]
    (l : List (α × β)) (k : α) : alLookup l k = none ↔ k ∉ alKeys l := by
  induction l with
  | nil => simp [alLookup, alKeys]
  | cons hd tl ih =>
    obtain ⟨k2, v2⟩ := hd
    by_cases h2 : k2 = k
    · subst h2
      simp [alLookup, alKeys]
    · simp [alLookup, alKeys, h2, Ne.symm h2]
      simpa [alKeys] using ih

theorem alKeys_alInsert {α β : Type} [DecidableEq α]
    (l : List (α × β)) (k : α) (v : β) :
    alKeys (alInsert l k v) = if k ∈ alKeys l then alKeys l else alKeys l ++ [k] := by
  induction l with
  | nil => simp [alInsert, alKeys]
  | cons hd tl ih =>
    obtain ⟨k2, v2⟩ := hd
    by_cases h2 : k2 = k
    · subst h2
      simp [alInsert, alKeys]
    · simp only [alInsert, if_neg h2, alKeys, List.map_cons] at ih ⊢
      rw [ih]
      by_cases h3 : k ∈ List.map Prod.fst tl
      · simp [h3, Ne.symm h2]
      · simp [h3, Ne.symm h2]

theorem alKeys_nodup_alInsert {α β : Type} [DecidableEq α]
    (l : List (α × β)) (k : α) (v : β) (h : (alKeys l).Nodup) :
    (alKeys (alInsert l k v)).Nodup := by
  rw [alKeys_alInsert]
  by_cases h2 : k ∈ alKeys l
  · simpa [h2] using h
  · simp only [if_neg h2]
    refine List.Nodup.append h (List.nodup_singleton k) ?_
    intro a ha hb
    simp at hb
    subst hb
    exact h2 ha

theorem alLookup_eq_of_mem_nodup {α β : Type} [DecidableEq α]
    (l : List (α × β)) (k : α) (v : β) (hnd : (alKeys l).Nodup)
    (h : (k, v) ∈ l) : alLookup l k = some v := by
  induction l with
  | nil => simp at h
  | cons hd tl ih =>
    obtain ⟨k2, v2⟩ := hd
    simp only [alKeys, List.map_cons, List.nodup_cons] at hnd
    rcases List.mem_cons.mp h with h3 | h3
    · cases h3
      simp [alLookup]
    · have h4 : k2 ≠ k := by
        intro hh
        subst hh
        exact hnd.1 (List.mem_map_of_mem Prod.fst h3)
      simp only [alLookup, if_neg h4]
      exact ih (by simpa [alKeys] using hnd.2) h3

/-! ### Rate limiter (src/server/src/config/rateLimiter.ts) -/

/-- The three message classes of the rate limiter. -/
inductive MessageType where
  | direct
  | global
  | room
deriving DecidableEq

/-- `RateLimitConfig` from rateLimiter.ts. -/
structure RateLimitConfig where
  maxMessages : Nat
  windowMs : Nat
  blockDurationMs : Option Nat
deriving DecidableEq

/-- `RATE_LIMITS` from rateLimiter.ts: per-class limits (max per window) and
cooldown durations in milliseconds. -/
def RATE_LIMITS : MessageType → RateLimitConfig
  | .direct => ⟨15, 60 * 1000, some (5 * 60 * 1000)⟩
  | .global => ⟨10, 60 * 1000, some (10 * 60 * 1000)⟩
  | .room => ⟨20, 60 * 1000, some (5 * 60 * 1000)⟩

/-- `UserMessageCount` from rateLimiter.ts. -/
structure UserMessageCount where
  count : Nat
  windowStart : Nat
  blockedUntil : Option Nat
deriving DecidableEq

/-- The `{limited, retryAfter?}` result of `isRateLimited`. -/
structure RateLimitResult where
  limited : Bool
  retryAfter : Option Nat
deriving DecidableEq

/-- `Math.ceil(n / 1000)` on integer milliseconds. -/
def ceilDiv1000 (n : Nat) : Nat := (n + 999) / 1000

/-- The tail of `isRateLimited` after the blocked-branch: window reset,
limit check with cooldown application.  Mirrors rateLimiter.ts lines 70-89.
JS truthiness of `limit.blockDurationMs` is modelled by the `d = 0` test
(0 and undefined are both falsy); `blockDurationMs!` in the `retryAfter`
computation is modelled by `Option.map` (it is `some` in every configured
class, so the undefined/NaN case is never reached). -/
def checkCounterTail (limit : RateLimitConfig) (countData : UserMessageCount)
    (now : Nat) : RateLimitResult × UserMessageCount :=
  let countData1 :=
    if now - countData.windowStart > limit.windowMs then
      { count := 0, windowStart := now, blockedUntil := none }
    else countData
  if countData1.count ≥ limit.maxMessages then
    let countData2 :=
      match limit.blockDurationMs with
      | some d => if d = 0 then countData1
                  else { countData1 with blockedUntil := some (now + d) }
      | none => countData1
    (⟨true, limit.blockDurationMs.map ceilDiv1000⟩, countData2)
  else
    (⟨false, none⟩, countData1)

/-- The per-counter body of `isRateLimited` (rateLimiter.ts lines 62-89).
The JS guard `countData.blockedUntil && now < countData.blockedUntil` agrees
with the `some b` + `now < b` test over `Nat`: for `b = 0` (the only falsy
number) `now < 0` is false as well. -/
def checkCounter (limit : RateLimitConfig) (countData : UserMessageCount)
    (now : Nat) : RateLimitResult × UserMessageCount :=
  match countData.blockedUntil with
  | some b =>
    if now < b then
      (⟨true, some (ceilDiv1000 (b - now))⟩, countData)
    else
      checkCounterTail limit countData now
  | none => checkCounterTail limit countData now

/-- The two-level `userMessageCounts` map: userId to (messageType to counter). -/
abbrev UserCounts := List (MessageType × UserMessageCount)

/-- The whole rate limiter state (`userMessageCounts` in rateLimiter.ts). -/
abbrev RateLimiterState := List (String × UserCounts)

/-- `isRateLimited(userId, messageType)` from rateLimiter.ts, with the clock
passed explicitly.  Creates the per-user map and the per-class counter on
demand (with `count = 0, windowStart = now`), runs the check and writes the
(possibly updated) counter back. -/
def isRateLimitedS (st : RateLimiterState) (userId : String)
    (messageType : MessageType) (now : Nat) : RateLimitResult × RateLimiterState :=
  let userCounts := (alLookup st userId).getD []
  let countData := (alLookup userCounts messageType).getD ⟨0, now, none⟩
  let checked := checkCounter (RATE_LIMITS messageType) countData now
  (checked.1, alInsert st userId (alInsert userCounts messageType checked.2))

/-- `incrementMessageCount(userId, messageType)` from rateLimiter.ts: a silent
no-op when the user or the class has no counter entry. -/
def incrementMessageCountS (st : RateLimiterState) (userId : String)
    (messageType : MessageType) : RateLimiterState :=
  match alLookup st userId with
  | none => st
  | some userCounts =>
    match alLookup userCounts messageType with
    | none => st
    | some countData =>
      alInsert st userId
        (alInsert userCounts messageType { countData with count := countData.count + 1 })

/-- Joint lookup of the counter stored for a user and class. -/
def lookupCounter (st : RateLimiterState) (userId : String)
    (messageType : MessageType) : Option UserMessageCount :=
  (alLookup st userId).bind (fun userCounts => alLookup userCounts messageType)

/-- A bare sequence of `isRateLimited` checks (no commits in between),
threading the state; returns the list of results. -/
def checkSeq (userId : String) (messageType : MessageType) (ts : List Nat)
    (st : RateLimiterState) : List RateLimitResult × RateLimiterState :=
  match ts with
  | [] => ([], st)
  | t :: rest =>
    let c := isRateLimitedS st userId messageType t
    let r := checkSeq userId messageType rest c.2
    (c.1 :: r.1, r.2)

/-- The check-then-commit sequence of the send flow: each `isRateLimited`
check that comes back allowed is followed by `incrementMessageCount`. -/
def checkCommitSeq (userId : String) (messageType : MessageType) (ts : List Nat)
    (st : RateLimiterState) : List RateLimitResult × RateLimiterState :=
  match ts with
  | [] => ([], st)
  | t :: rest =>
    let c := isRateLimitedS st userId messageType t
    let st2 := if c.1.limited then c.2 else incrementMessageCountS c.2 userId messageType
    let r := checkCommitSeq userId messageType rest st2
    (c.1 :: r.1, r.2)

example :
    (isRateLimitedS [] "u" .global 5).1 = ⟨false, none⟩ ∧
    lookupCounter (isRateLimitedS [] "u" .global 5).2 "u" .global = some ⟨0, 5, none⟩ := by
  decide

example :
    (checkSeq "u" .global (List.replicate 11 0) []).1.map RateLimitResult.limited =
      List.replicate 11 false := by
  decide

theorem maxMessages_pos (mt : MessageType) : 0 < (RATE_LIMITS mt).maxMessages := by
  cases mt <;> simp [RATE_LIMITS]

theorem windowMs_lt_blockDuration (mt : MessageType) (d : Nat)
    (h : (RATE_LIMITS mt).blockDurationMs = some d) :
    (RATE_LIMITS mt).windowMs < d := by
  cases mt <;> simp [RATE_LIMITS] at h ⊢ <;> omega

theorem checkCounter_allowed (limit : RateLimitConfig) (k t1 t : Nat)
    (hk : k < limit.maxMessages) (ht : t ≤ t1 + limit.windowMs) :
    checkCounter limit ⟨k, t1, none⟩ t = (⟨false, none⟩, ⟨k, t1, none⟩) := by
  have h1 : ¬ (t - t1 > limit.windowMs) := by omega
  simp [checkCounter, checkCounterTail, h1, Nat.not_le.mpr hk]

theorem checkCounter_blocked (limit : RateLimitConfig) (cd : UserMessageCount)
    (b now : Nat) (hb : cd.blockedUntil = some b) (h : now < b) :
    checkCounter limit cd now = (⟨true, some (ceilDiv1000 (b - now))⟩, cd) := by
  simp [checkCounter, hb, h]

theorem checkCounter_violation (limit : RateLimitConfig) (k t1 now d : Nat)
    (hd : limit.blockDurationMs = some d) (hd0 : d ≠ 0)
    (hk : limit.maxMessages ≤ k) (ht : now ≤ t1 + limit.windowMs) :
    checkCounter limit ⟨k, t1, none⟩ now =
      (⟨true, some (ceilDiv1000 d)⟩, ⟨k, t1, some (now + d)⟩) := by
  have h1 : ¬ (now - t1 > limit.windowMs) := by omega
  simp [checkCounter, checkCounterTail, h1, hk, hd, hd0]

theorem checkCounter_reset (limit : RateLimitConfig) (cd : UserMessageCount) (now : Nat)
    (hbu : ∀ b, cd.blockedUntil = some b → b ≤ now)
    (hw : cd.windowStart + limit.windowMs < now) (hmax : 0 < limit.maxMessages) :
    checkCounter limit cd now = (⟨false, none⟩, ⟨0, now, none⟩) := by
  have h1 : now - cd.windowStart > limit.windowMs := by omega
  cases hb : cd.blockedUntil with
  | none => simp [checkCounter, hb, checkCounterTail, h1, Nat.not_le.mpr hmax]
  | some b =>
    have hble : ¬ now < b := Nat.not_lt.mpr (hbu b hb)
    simp [checkCounter, hb, hble, checkCounterTail, h1, Nat.not_le.mpr hmax]

theorem isRateLimitedS_eq (st : RateLimiterState) (u : String) (mt : MessageType)
    (now : Nat) (uc : UserCounts) (cd : UserMessageCount)
    (h1 : alLookup st u = some uc) (h2 : alLookup uc mt = some cd) :
    isRateLimitedS st u mt now =
      ((checkCounter (RATE_LIMITS mt) cd now).1,
       alInsert st u (alInsert uc mt (checkCounter (RATE_LIMITS mt) cd now).2)) := by
  simp [isRateLimitedS, h1, h2]

theorem isRateLimitedS_eq_fresh_user (st : RateLimiterState) (u : String)
    (mt : MessageType) (now : Nat) (h1 : alLookup st u = none) :
    isRateLimitedS st u mt now =
      ((checkCounter (RATE_LIMITS mt) ⟨0, now, none⟩ now).1,
       alInsert st u (alInsert [] mt (checkCounter (RATE_LIMITS mt) ⟨0, now, none⟩ now).2)) := by
  simp [isRateLimitedS, h1, alLookup]

theorem isRateLimitedS_eq_fresh_class (st : RateLimiterState) (u : String)
    (mt : MessageType) (now : Nat) (uc : UserCounts)
    (h1 : alLookup st u = some uc) (h2 : alLookup uc mt = none) :
    isRateLimitedS st u mt now =
      ((checkCounter (RATE_LIMITS mt) ⟨0, now, none⟩ now).1,
       alInsert st u (alInsert uc mt (checkCounter (RATE_LIMITS mt) ⟨0, now, none⟩ now).2)) := by
  simp [isRateLimitedS, h1, h2]

theorem lookupCounter_write (st : RateLimiterState) (u : String) (mt : MessageType)
    (uc : UserCounts) (cd : UserMessageCount) :
    lookupCounter (alInsert st u (alInsert uc mt cd)) u mt = some cd := by
  simp [lookupCounter, alLookup_alInsert_self]

theorem incrementMessageCountS_eq (st : RateLimiterState) (u : String)
    (mt : MessageType) (uc : UserCounts) (cd : UserMessageCount)
    (h1 : alLookup st u = some uc) (h2 : alLookup uc mt = some cd) :
    incrementMessageCountS st u mt =
      alInsert st u (alInsert uc mt { cd with count := cd.count + 1 }) := by
  simp [incrementMessageCountS, h1, h2]

/-- One allowed check followed by its commit: the counter advances by one and
the window data is untouched. -/
theorem checkCommit_step (st : RateLimiterState) (u : String) (mt : MessageType)
    (k t1 t : Nat) (hc : lookupCounter st u mt = some ⟨k, t1, none⟩)
    (hk : k < (RATE_LIMITS mt).maxMessages)
    (ht : t ≤ t1 + (RATE_LIMITS mt).windowMs) :
    (isRateLimitedS st u mt t).1 = ⟨false, none⟩ ∧
    lookupCounter (incrementMessageCountS (isRateLimitedS st u mt t).2 u mt) u mt
      = some ⟨k + 1, t1, none⟩ := by
  unfold lookupCounter at hc
  cases h1 : alLookup st u with
  | none => simp [h1] at hc
  | some uc =>
    rw [h1] at hc
    simp only [Option.some_bind'] at hc
    rw [isRateLimitedS_eq st u mt t uc ⟨k, t1, none⟩ h1 hc,
        checkCounter_allowed (RATE_LIMITS mt) k t1 t hk ht]
    refine ⟨rfl, ?_⟩
    rw [incrementMessageCountS_eq _ u mt (alInsert uc mt ⟨k, t1, none⟩) ⟨k, t1, none⟩
        (alLookup_alInsert_self ..) (alLookup_alInsert_self ..)]
    exact lookupCounter_write ..

/-- The first-ever check for a user and class creates the counter with
`windowStart = now`, comes back allowed, and the commit sets `count = 1`. -/
theorem checkCommit_step_fresh (st : RateLimiterState) (u : String) (mt : MessageType)
    (t : Nat) (hc : lookupCounter st u mt = none) :
    (isRateLimitedS st u mt t).1 = ⟨false, none⟩ ∧
    lookupCounter (incrementMessageCountS (isRateLimitedS st u mt t).2 u mt) u mt
      = some ⟨1, t, none⟩ := by
  have hmax := maxMessages_pos mt
  have hall := checkCounter_allowed (RATE_LIMITS mt) 0 t t hmax (Nat.le_add_right ..)
  unfold lookupCounter at hc
  cases h1 : alLookup st u with
  | none =>
    rw [isRateLimitedS_eq_fresh_user st u mt t h1, hall]
    refine ⟨rfl, ?_⟩
    rw [incrementMessageCountS_eq _ u mt (alInsert [] mt ⟨0, t, none⟩) ⟨0, t, none⟩
        (alLookup_alInsert_self ..) (alLookup_alInsert_self ..)]
    exact lookupCounter_write ..
  | some uc =>
    rw [h1] at hc
    simp only [Option.some_bind'] at hc
    rw [isRateLimitedS_eq_fresh_class st u mt t uc h1 hc, hall]
    refine ⟨rfl, ?_⟩
    rw [incrementMessageCountS_eq _ u mt (alInsert uc mt ⟨0, t, none⟩) ⟨0, t, none⟩
        (alLookup_alInsert_self ..) (alLookup_alInsert_self ..)]
    exact lookupCounter_write ..

/-- A check with the window limit already reached (within the window) enters
cooldown: `blockedUntil = now + cooldownMs` and the reply carries
`retryAfterSeconds = ceil(cooldownMs / 1000)`. -/
theorem check_violation_step (st : RateLimiterState) (u : String) (mt : MessageType)
    (k t1 t d : Nat) (hc : lookupCounter st u mt = some ⟨k, t1, none⟩)
    (hd : (RATE_LIMITS mt).blockDurationMs = some d)
    (hk : (RATE_LIMITS mt).maxMessages ≤ k)
    (ht : t ≤ t1 + (RATE_LIMITS mt).windowMs) :
    (isRateLimitedS st u mt t).1 = ⟨true, some (ceilDiv1000 d)⟩ ∧
    lookupCounter (isRateLimitedS st u mt t).2 u mt = some ⟨k, t1, some (t + d)⟩ := by
  have hd0 : d ≠ 0 := by
    have := windowMs_lt_blockDuration mt d hd
    omega
  unfold lookupCounter at hc
  cases h1 : alLookup st u with
  | none => simp [h1] at hc
  | some uc =>
    rw [h1] at hc
    simp only [Option.some_bind'] at hc
    rw [isRateLimitedS_eq st u mt t uc ⟨k, t1, none⟩ h1 hc,
        checkCounter_violation (RATE_LIMITS mt) k t1 t d hd hd0 hk ht]
    exact ⟨rfl, lookupCounter_write ..⟩

/-- A check during an active cooldown rejects with the remaining time and
leaves the whole rate-limiter state exactly as it was. -/
theorem isRateLimitedS_blocked_state (st : RateLimiterState) (u : String)
    (mt : MessageType) (now b : Nat) (cd : UserMessageCount)
    (hc : lookupCounter st u mt = some cd) (hb : cd.blockedUntil = some b)
    (h : now < b) :
    isRateLimitedS st u mt now = (⟨true, some (ceilDiv1000 (b - now))⟩, st) := by
  unfold lookupCounter at hc
  cases h1 : alLookup st u with
  | none => simp [h1] at hc
  | some uc =>
    rw [h1] at hc
    simp only [Option.some_bind'] at hc
    rw [isRateLimitedS_eq st u mt now uc cd h1 hc,
        checkCounter_blocked (RATE_LIMITS mt) cd b now hb h,
        alInsert_self_of_lookup uc mt cd hc, alInsert_self_of_lookup st u uc h1]

/-- C9: during a cooldown (`now < blockedUntil`) a rate-limit check does not
modify any state (in particular `blockedUntil` is never extended) and rejects
with `retryAfterSeconds = ceil((blockedUntil - now)/1000)`, a value that
shrinks monotonically as `now` advances toward `blockedUntil`. -/
theorem claim_C9_cooldown_not_extended (st : RateLimiterState) (u : String)
    (mt : MessageType) (cd : UserMessageCount) (b : Nat)
    (hc : lookupCounter st u mt = some cd) (hb : cd.blockedUntil = some b) :
    (∀ now, now < b →
      isRateLimitedS st u mt now = (⟨true, some (ceilDiv1000 (b - now))⟩, st)) ∧
    (∀ n1 n2, n1 ≤ n2 → n2 < b →
      ceilDiv1000 (b - n2) ≤ ceilDiv1000 (b - n1)) := by
  refine ⟨fun now h => isRateLimitedS_blocked_state st u mt now b cd hc hb h, ?_⟩
  intro n1 n2 h12 h2
  unfold ceilDiv1000
  exact Nat.div_le_div_right (by omega)

theorem claim_C9_witness :
    isRateLimitedS [("u", [(MessageType.global, ⟨10, 0, some 600000⟩)])]
        "u" .global 1000 =
      (⟨true, some (ceilDiv1000 (600000 - 1000))⟩,
       [("u", [(MessageType.global, ⟨10, 0, some 600000⟩)])]) ∧
    ceilDiv1000 (600000 - 2000) ≤ ceilDiv1000 (600000 - 1000) := by
  have h := claim_C9_cooldown_not_extended
    [("u", [(MessageType.global, ⟨10, 0, some 600000⟩)])] "u" .global
    ⟨10, 0, some 600000⟩ 600000 (by decide) rfl
  exact ⟨h.1 1000 (by omega), h.2 1000 2000 (by omega) (by omega)⟩

/-- C8: once a cooldown has elapsed (`blockedUntil ≤ now`), the next check for
the same user and class comes back allowed and the counter is reset to a
fresh window: `count = 0`, `windowStart = now`, `blockedUntil` cleared.
The hypothesis `windowStart + cooldownMs ≤ blockedUntil` holds for every
state the limiter itself produces, since the cooldown is applied as
`blockedUntil = now + cooldownMs` with `windowStart ≤ now`. -/
theorem claim_C8_cooldown_elapsed_resets (st : RateLimiterState) (u : String)
    (mt : MessageType) (cd : UserMessageCount) (b d now : Nat)
    (hc : lookupCounter st u mt = some cd) (hb : cd.blockedUntil = some b)
    (hd : (RATE_LIMITS mt).blockDurationMs = some d)
    (hwb : cd.windowStart + d ≤ b) (hnow : b ≤ now) :
    (isRateLimitedS st u mt now).1 = ⟨false, none⟩ ∧
    lookupCounter (isRateLimitedS st u mt now).2 u mt = some ⟨0, now, none⟩ := by
  have hwd := windowMs_lt_blockDuration mt d hd
  have hreset : cd.windowStart + (RATE_LIMITS mt).windowMs < now := by omega
  have hcc := checkCounter_reset (RATE_LIMITS mt) cd now
    (fun b2 hb2 => by rw [hb] at hb2; cases hb2; omega) hreset (maxMessages_pos mt)
  unfold lookupCounter at hc
  cases h1 : alLookup st u with
  | none => simp [h1] at hc
  | some uc =>
    rw [h1] at hc
    simp only [Option.some_bind'] at hc
    rw [isRateLimitedS_eq st u mt now uc cd h1 hc, hcc]
    exact ⟨rfl, lookupCounter_write ..⟩

theorem claim_C8_witness :
    (isRateLimitedS [("u", [(MessageType.global, ⟨10, 40, some 600040⟩)])]
        "u" .global 600040).1 = ⟨false, none⟩ ∧
    lookupCounter (isRateLimitedS [("u", [(MessageType.global, ⟨10, 40, some 600040⟩)])]
        "u" .global 600040).2 "u" .global = some ⟨0, 600040, none⟩ :=
  claim_C8_cooldown_elapsed_resets
    [("u", [(MessageType.global, ⟨10, 40, some 600040⟩)])] "u" .global
    ⟨10, 40, some 600040⟩ 600040 600000 600040 (by decide) rfl rfl (by decide) (by omega)

theorem checkCounterTail_count_cases (limit : RateLimitConfig)
    (cd : UserMessageCount) (now : Nat) :
    (checkCounterTail limit cd now).2.count = cd.count ∨
    (checkCounterTail limit cd now).2.count = 0 := by
  by_cases h1 : now - cd.windowStart > limit.windowMs
  · refine Or.inr ?_
    simp only [checkCounterTail, if_pos h1]
    by_cases h2 : limit.maxMessages ≤ 0
    · rcases hd : limit.blockDurationMs with _ | d
      · simp [hd, h2]
      · by_cases h3 : d = 0 <;> simp [hd, h2, h3]
    · simp [h2]
  · simp only [checkCounterTail, if_neg h1]
    by_cases h2 : limit.maxMessages ≤ cd.count
    · refine Or.inl ?_
      rcases hd : limit.blockDurationMs with _ | d
      · simp [hd, h2]
      · by_cases h3 : d = 0 <;> simp [hd, h2, h3]
    · simp [h2]

theorem checkCounter_count_cases (limit : RateLimitConfig)
    (cd : UserMessageCount) (now : Nat) :
    (checkCounter limit cd now).2.count = cd.count ∨
    (checkCounter limit cd now).2.count = 0 := by
  cases hb : cd.blockedUntil with
  | none =>
    simp only [checkCounter, hb]
    exact checkCounterTail_count_cases limit cd now
  | some b =>
    by_cases h1 : now < b
    · simp [checkCounter, hb, h1]
    · simp only [checkCounter, hb, if_neg h1]
      exact checkCounterTail_count_cases limit cd now

/-- C10: a rate-limit check never increases any stored count (it can only
leave it unchanged or reset it to 0), and `incrementMessageCount` is a
silent no-op when no counter entry exists for that user or class, so quota
can only ever be consumed on an entry a prior check created. -/
theorem claim_C10_check_consumes_no_quota (st : RateLimiterState) (u : String)
    (mt : MessageType) (now : Nat) :
    (∀ (u2 : String) (mt2 : MessageType),
      (lookupCounter (isRateLimitedS st u mt now).2 u2 mt2).map UserMessageCount.count
        = (lookupCounter st u2 mt2).map UserMessageCount.count ∨
      (lookupCounter (isRateLimitedS st u mt now).2 u2 mt2).map UserMessageCount.count
        = some 0) ∧
    (lookupCounter st u mt = none → incrementMessageCountS st u mt = st) := by
  constructor
  · intro u2 mt2
    by_cases hu : u2 = u
    · subst hu
      by_cases hmt : mt2 = mt
      · subst hmt
        refine ?_
        have hwrite :
            lookupCounter (isRateLimitedS st u2 mt2 now).2 u2 mt2 =
              some (checkCounter (RATE_LIMITS mt2)
                ((alLookup ((alLookup st u2).getD []) mt2).getD ⟨0, now, none⟩) now).2 := by
          simp only [isRateLimitedS]
          exact lookupCounter_write ..
        rcases checkCounter_count_cases (RATE_LIMITS mt2)
            ((alLookup ((alLookup st u2).getD []) mt2).getD ⟨0, now, none⟩) now with hcc | hcc
        · cases h1 : alLookup st u2 with
          | none =>
            refine Or.inr ?_
            rw [hwrite]
            simp only [Option.map_some']
            rw [hcc]
            simp [h1, alLookup]
          | some uc =>
            cases h2 : alLookup uc mt2 with
            | none =>
              refine Or.inr ?_
              rw [hwrite]
              simp only [Option.map_some']
              rw [hcc]
              simp [h1, h2]
            | some cd =>
              refine Or.inl ?_
              rw [hwrite]
              simp only [Option.map_some']
              rw [hcc]
              simp [lookupCounter, h1, h2]
        · refine Or.inr ?_
          rw [hwrite]
          simp only [Option.map_some']
          rw [hcc]
      · refine Or.inl ?_
        have hst : (isRateLimitedS st u2 mt now).2 =
            alInsert st u2 (alInsert ((alLookup st u2).getD []) mt
              (checkCounter (RATE_LIMITS mt)
                ((alLookup ((alLookup st u2).getD []) mt).getD ⟨0, now, none⟩) now).2) := by
          simp only [isRateLimitedS]
        rw [hst]
        unfold lookupCounter
        rw [alLookup_alInsert_self]
        simp only [Option.some_bind']
        rw [alLookup_alInsert_ne _ _ _ _ hmt]
        cases h1 : alLookup st u2 with
        | none => simp [alLookup]
        | some uc => simp
    · refine Or.inl ?_
      have hst : (isRateLimitedS st u mt now).2 =
          alInsert st u (alInsert ((alLookup st u).getD []) mt
            (checkCounter (RATE_LIMITS mt)
              ((alLookup ((alLookup st u).getD []) mt).getD ⟨0, now, none⟩) now).2) := by
        simp only [isRateLimitedS]
      rw [hst]
      unfold lookupCounter
      rw [alLookup_alInsert_ne _ _ _ _ hu]
  · intro hc
    unfold lookupCounter at hc
    cases h1 : alLookup st u with
    | none => simp [incrementMessageCountS, h1]
    | some uc =>
      rw [h1] at hc
      simp only [Option.some_bind'] at hc
      simp [incrementMessageCountS, h1, hc]

theorem claim_C10_witness :
    ((lookupCounter (isRateLimitedS [] "u" .direct 7).2 "v" .room).map
        UserMessageCount.count
      = (lookupCounter ([] : RateLimiterState) "v" .room).map UserMessageCount.count ∨
     (lookupCounter (isRateLimitedS [] "u" .direct 7).2 "v" .room).map
        UserMessageCount.count = some 0) ∧
    incrementMessageCountS [] "u" .direct = [] :=
  ⟨(claim_C10_check_consumes_no_quota [] "u" .direct 7).1 "v" .room,
   (claim_C10_check_consumes_no_quota [] "u" .direct 7).2 rfl⟩

/-- As long as max is not reached, every committed send inside the window is
allowed and advances the counter by exactly its own count. -/
theorem checkCommitSeq_allowed (u : String) (mt : MessageType) (ts : List Nat) :
    ∀ (st : RateLimiterState) (k t1 : Nat),
    lookupCounter st u mt = some ⟨k, t1, none⟩ →
    k + ts.length ≤ (RATE_LIMITS mt).maxMessages →
    (∀ t ∈ ts, t ≤ t1 + (RATE_LIMITS mt).windowMs) →
    (checkCommitSeq u mt ts st).1 = List.replicate ts.length ⟨false, none⟩ ∧
    lookupCounter (checkCommitSeq u mt ts st).2 u mt = some ⟨k + ts.length, t1, none⟩ := by
  induction ts with
  | nil =>
    intro st k t1 hc _ _
    simpa [checkCommitSeq] using hc
  | cons t rest ih =>
    intro st k t1 hc hlen hts
    have hk : k < (RATE_LIMITS mt).maxMessages := by
      simp only [List.length_cons] at hlen
      omega
    have hstep := checkCommit_step st u mt k t1 t hc hk (hts t (by simp))
    have harith : k + 1 + rest.length = k + (rest.length + 1) := by omega
    simp only [checkCommitSeq, hstep.1, if_neg Bool.false_ne_true]
    have hih := ih (incrementMessageCountS (isRateLimitedS st u mt t).2 u mt)
      (k + 1) t1 hstep.2 (by simp only [List.length_cons] at hlen; omega)
      (fun t2 ht2 => hts t2 (by simp [ht2]))
    refine ⟨?_, ?_⟩
    · simp only [List.length_cons, List.replicate_succ]
      exact congrArg (List.cons _) hih.1
    · rw [hih.2]
      simp only [List.length_cons, harith]

/-- Counterexample to C2 as stated: from a fresh state, eleven bare
`isRateLimited` checks for (u, global) — one more than `max = 10`, all within
one window — every one of them comes back allowed, including the eleventh,
because a bare check never increments the stored count. -/
theorem claim_C2_counterexample :
    (checkSeq "u" .global (List.replicate 11 0) []).1.map RateLimitResult.limited
      = List.replicate 11 false ∧
    (checkSeq "u" .global (List.replicate 11 0) []).1.getLast?
      = some ⟨false, none⟩ := by
  decide

/-- C2 (amended): when each allowed check is followed by its
`incrementMessageCount` commit — as the send flow does — the first `max`
checks within one window all return allowed, and every further check within
the window returns not-allowed with
`retryAfterSeconds = ceil(cooldownMs / 1000)`. -/
theorem claim_C2_max_commits_then_blocked (u : String) (mt : MessageType)
    (st0 : RateLimiterState) (t1 : Nat) (ts : List Nat)
    (h0 : lookupCounter st0 u mt = none)
    (hlen : ts.length + 1 = (RATE_LIMITS mt).maxMessages)
    (hts : ∀ t ∈ ts, t ≤ t1 + (RATE_LIMITS mt).windowMs) :
    (checkCommitSeq u mt (t1 :: ts) st0).1
      = List.replicate (RATE_LIMITS mt).maxMessages ⟨false, none⟩ ∧
    ∀ t2, t2 ≤ t1 + (RATE_LIMITS mt).windowMs →
      (isRateLimitedS (checkCommitSeq u mt (t1 :: ts) st0).2 u mt t2).1
        = ⟨true, (RATE_LIMITS mt).blockDurationMs.map ceilDiv1000⟩ := by
  have hstep := checkCommit_step_fresh st0 u mt t1 h0
  have hseq := checkCommitSeq_allowed u mt ts
    (incrementMessageCountS (isRateLimitedS st0 u mt t1).2 u mt) 1 t1 hstep.2
    (by omega) hts
  have hfin : lookupCounter (checkCommitSeq u mt (t1 :: ts) st0).2 u mt
      = some ⟨(RATE_LIMITS mt).maxMessages, t1, none⟩ := by
    simp only [checkCommitSeq, hstep.1, if_neg Bool.false_ne_true]
    rw [hseq.2]
    have : 1 + ts.length = (RATE_LIMITS mt).maxMessages := by omega
    rw [this]
  refine ⟨?_, ?_⟩
  · simp only [checkCommitSeq, hstep.1, if_neg Bool.false_ne_true]
    rw [hseq.1, ← hlen]
    simp [List.replicate_succ]
  · intro t2 ht2
    cases hd : (RATE_LIMITS mt).blockDurationMs with
    | none => cases mt <;> simp [RATE_LIMITS] at hd
    | some d =>
      have hv := check_violation_step (checkCommitSeq u mt (t1 :: ts) st0).2 u mt
        (RATE_LIMITS mt).maxMessages t1 t2 d hfin hd (Nat.le_refl _) ht2
      rw [hv.1]
      simp

theorem claim_C2_witness :
    (checkCommitSeq "u" .global (0 :: List.replicate 9 0) []).1
      = List.replicate 10 ⟨false, none⟩ ∧
    (isRateLimitedS (checkCommitSeq "u" .global (0 :: List.replicate 9 0) []).2
        "u" .global 30000).1 = ⟨true, some 600⟩ := by
  have h := claim_C2_max_commits_then_blocked "u" .global [] 0
    (List.replicate 9 0) rfl (by decide)
    (fun t ht => by rw [List.eq_of_mem_replicate ht]; simp [RATE_LIMITS])
  refine ⟨by simpa [RATE_LIMITS] using h.1, ?_⟩
  have h2 := h.2 30000 (by simp [RATE_LIMITS])
  simpa [RATE_LIMITS, ceilDiv1000] using h2

/-! ### Blocklist gate (server/src/config/blocklist.ts) -/

/-- `BLOCKED_USER_IDS` from blocklist.ts (a set with a single entry). -/
def BLOCKED_USER_IDS : List String := ["1438210365"]

/-- `isUserBlocked` generalized over the current contents of the blocklist
set (the set is mutable via `blockUser` and `unblockUser`). -/
def isUserBlockedIn (blockedIds : List String) (userId : String) : Bool :=
  blockedIds.contains userId

/-- `isUserBlocked(userId)` from blocklist.ts against the shipped set. -/
def isUserBlocked (userId : String) : Bool :=
  isUserBlockedIn BLOCKED_USER_IDS userId

/-! ### Connection registry (index.ts: userSockets / socketUsers maps) -/

/-- The data the server keeps on `socket` objects: `socket.id` and
`socket.data.username`. -/
structure SocketData where
  socketId : String
  username : String
deriving DecidableEq

/-- The two in-memory socket maps of index.ts:
`userSockets : userId -> socket` and `socketUsers : socketId -> userId`. -/
structure Registry where
  userSockets : List (String × SocketData)
  socketUsers : List (String × String)
deriving DecidableEq

/-- The empty registry at process start. -/
def Registry.empty : Registry := ⟨[], []⟩

/-- The connection handler's registration step:
`userSockets.set(userId, socket); socketUsers.set(socket.id, userId)`. -/
def registerConnection (r : Registry) (userId : String) (s : SocketData) : Registry :=
  { userSockets := alInsert r.userSockets userId s
    socketUsers := alInsert r.socketUsers s.socketId userId }

/-- The disconnect handler's registry cleanup:
`userId = socketUsers.get(socket.id); if (userId) { userSockets.delete(userId);
socketUsers.delete(socket.id); }`.  Returns the removed userId, if any. -/
def unregisterConnection (r : Registry) (socketId : String) :
    Option String × Registry :=
  match alLookup r.socketUsers socketId with
  | none => (none, r)
  | some userId =>
    (some userId,
     { userSockets := alErase r.userSockets userId
       socketUsers := alErase r.socketUsers socketId })

/-- `findSocketByUserId` from index.ts. -/
def findSocketByUserId (r : Registry) (userId : String) : Option SocketData :=
  alLookup r.userSockets userId

/-- Counterexample to C3 as stated: registering "u" on socket "s1" and then on
socket "s2" leaves `lookupByUser("u") = s2`, but the inverse map still holds
the residual entry for connection id "s1" — the connection handler never
cleans up the superseded socket's `socketUsers` entry. -/
theorem claim_C3_counterexample :
    findSocketByUserId
        (registerConnection (registerConnection Registry.empty "u" ⟨"s1", "n1"⟩)
          "u" ⟨"s2", "n2"⟩) "u" = some ⟨"s2", "n2"⟩ ∧
    ¬ alLookup (registerConnection (registerConnection Registry.empty "u" ⟨"s1", "n1"⟩)
          "u" ⟨"s2", "n2"⟩).socketUsers "s1" = none := by
  decide

/-- C3 (amended): after `register(u,h1)` then `register(u,h2)` (distinct
connection ids), `lookupByUser(u)` resolves to h2, but the inverse map keeps
the stale entry mapping h1's connection id to u alongside h2's entry — the
maps are not kept in one-to-one correspondence; only the removal that does
happen (`unregister`) deletes from both maps together. -/
theorem claim_C3_last_write_wins_residual (r : Registry) (u : String)
    (h1 h2 : SocketData) (hne : h1.socketId ≠ h2.socketId) :
    findSocketByUserId (registerConnection (registerConnection r u h1) u h2) u
      = some h2 ∧
    alLookup (registerConnection (registerConnection r u h1) u h2).socketUsers
      h1.socketId = some u := by
  constructor
  · unfold findSocketByUserId registerConnection
    exact alLookup_alInsert_self ..
  · unfold registerConnection
    simp only
    rw [alLookup_alInsert_ne _ _ _ _ hne, alLookup_alInsert_self]

theorem claim_C3_amended_witness :
    findSocketByUserId
        (registerConnection (registerConnection Registry.empty "u" ⟨"s1", "n1"⟩)
          "u" ⟨"s2", "n2"⟩) "u" = some ⟨"s2", "n2"⟩ ∧
    alLookup (registerConnection (registerConnection Registry.empty "u" ⟨"s1", "n1"⟩)
          "u" ⟨"s2", "n2"⟩).socketUsers "s1" = some "u" :=
  claim_C3_last_write_wins_residual Registry.empty "u" ⟨"s1", "n1"⟩ ⟨"s2", "n2"⟩
    (by decide)

/-! ### Store rows and message handlers (chatService.ts + index.ts handlers) -/

/-- A row of the `messages` table as inserted by `saveDirectMessage`,
`saveGlobalMessage` and `saveRoomMessage`. -/
structure StoredMessage where
  sender_id : String
  recipient_id : Option String
  room_id : Option String
  message : String
  created_at : Nat
deriving DecidableEq

/-- The row written by `saveDirectMessage(senderId, recipientId, message)`. -/
def mkDirectRecord (senderId recipientId message : String) (now : Nat) :
    StoredMessage :=
  ⟨senderId, some recipientId, none, message, now⟩

/-- The row written by `saveGlobalMessage(senderId, message)`:
`room_id = "global"`. -/
def mkGlobalRecord (senderId message : String) (now : Nat) : StoredMessage :=
  ⟨senderId, none, some "global", message, now⟩

/-- The row written by `saveRoomMessage(senderId, roomId, message)`. -/
def mkRoomRecord (senderId roomId message : String) (now : Nat) : StoredMessage :=
  ⟨senderId, none, some roomId, message, now⟩

/-- The server-side state a send attempt can touch: the in-memory rate
limiter maps and the persisted `messages` table. -/
structure ServerState where
  rl : RateLimiterState
  store : List StoredMessage
deriving DecidableEq

/-- The payload fanned out for a delivered message
(`{senderId, senderUsername, message, timestamp}`). -/
structure MessagePayload where
  senderId : String
  senderUsername : String
  message : String
  timestamp : Nat
deriving DecidableEq

/-- Where a delivered message is fanned out. -/
inductive FanOut where
  | nobody
  | toSocket (socketId : String)
  | toRoom (roomId : String)
deriving DecidableEq

/-- The outward signal a send attempt produces: one of the three error events
or a delivery (fan-out plus acknowledgement to the sender). -/
inductive SendOutcome where
  | errBlocked
  | errRateLimited (retryAfter : Option Nat)
  | errMessageFailed
  | sent (fanout : FanOut) (payload : MessagePayload)
deriving DecidableEq

/-- The `globalMessage` socket handler: blocklist check, rate check, persist
(`saveGlobalMessage`, whose success is the external `persistOk`), then
`incrementMessageCount` and fan-out to the "global" room.  Mirrors the
handler in the secured index.ts (SECURITY.md lines 794-848). -/
def handleGlobalMessage (blockedIds : List String) (st : ServerState)
    (senderId senderUsername message : String) (now : Nat) (persistOk : Bool) :
    SendOutcome × ServerState :=
  if isUserBlockedIn blockedIds senderId then
    (.errBlocked, st)
  else
    let checked := isRateLimitedS st.rl senderId .global now
    if checked.1.limited then
      (.errRateLimited checked.1.retryAfter, { st with rl := checked.2 })
    else if persistOk then
      (.sent (.toRoom "global") ⟨senderId, senderUsername, message, now⟩,
       { rl := incrementMessageCountS checked.2 senderId .global,
         store := st.store ++ [mkGlobalRecord senderId message now] })
    else
      (.errMessageFailed, { st with rl := checked.2 })

/-- The `directMessage` socket handler: blocklist check, rate check, persist
(`saveDirectMessage`), then `incrementMessageCount`, forward to the
recipient's socket when one is registered (otherwise no fan-out), and
acknowledge the sender.  Mirrors SECURITY.md lines 572-660. -/
def handleDirectMessage (blockedIds : List String) (registry : Registry)
    (st : ServerState) (senderId senderUsername recipientId message : String)
    (now : Nat) (persistOk : Bool) : SendOutcome × ServerState :=
  if isUserBlockedIn blockedIds senderId then
    (.errBlocked, st)
  else
    let checked := isRateLimitedS st.rl senderId .direct now
    if checked.1.limited then
      (.errRateLimited checked.1.retryAfter, { st with rl := checked.2 })
    else if persistOk then
      let st2 : ServerState :=
        { rl := incrementMessageCountS checked.2 senderId .direct,
          store := st.store ++ [mkDirectRecord senderId recipientId message now] }
      match findSocketByUserId registry recipientId with
      | some s => (.sent (.toSocket s.socketId)
          ⟨senderId, senderUsername, message, now⟩, st2)
      | none => (.sent .nobody ⟨senderId, senderUsername, message, now⟩, st2)
    else
      (.errMessageFailed, { st with rl := checked.2 })

/-- The `roomMessage` socket handler.  Mirrors SECURITY.md lines 712-772. -/
def handleRoomMessage (blockedIds : List String) (st : ServerState)
    (senderId senderUsername roomId message : String) (now : Nat)
    (persistOk : Bool) : SendOutcome × ServerState :=
  if isUserBlockedIn blockedIds senderId then
    (.errBlocked, st)
  else
    let checked := isRateLimitedS st.rl senderId .room now
    if checked.1.limited then
      (.errRateLimited checked.1.retryAfter, { st with rl := checked.2 })
    else if persistOk then
      (.sent (.toRoom roomId) ⟨senderId, senderUsername, message, now⟩,
       { rl := incrementMessageCountS checked.2 senderId .room,
         store := st.store ++ [mkRoomRecord senderId roomId message now] })
    else
      (.errMessageFailed, { st with rl := checked.2 })

/-- C7: a blocked sender's direct-message attempt is rejected with the
`blocked` error before anything else happens: no Store call (the store and
indeed the entire server state are untouched), no fan-out, and no rate-limit
quota consumed. -/
theorem claim_C7_blocked_sender_direct (blockedIds : List String)
    (registry : Registry) (st : ServerState)
    (senderId senderUsername recipientId message : String) (now : Nat)
    (persistOk : Bool) (hb : isUserBlockedIn blockedIds senderId = true) :
    handleDirectMessage blockedIds registry st senderId senderUsername
      recipientId message now persistOk = (.errBlocked, st) := by
  simp [handleDirectMessage, hb]

theorem claim_C7_witness :
    handleDirectMessage BLOCKED_USER_IDS Registry.empty ⟨[], []⟩
      "1438210365" "evil" "carol" "hi" 1000 true = (.errBlocked, ⟨[], []⟩) :=
  claim_C7_blocked_sender_direct BLOCKED_USER_IDS Registry.empty ⟨[], []⟩
    "1438210365" "evil" "carol" "hi" 1000 true (by decide)

/-- C4: for each of the three handlers, when the blocklist and rate checks
pass but persistence fails, the sender gets `message_failed`, the store is
untouched, no fan-out happens, and the rate-limit state is exactly the
post-check state — the count is not incremented; and when persistence
succeeds, the resulting state is the post-check state with the commit
applied and the message appended, i.e. the increment happens only after a
successful persist. -/
theorem claim_C4_persist_failure_no_quota (blockedIds : List String)
    (registry : Registry) (st : ServerState)
    (sender uname target msg : String) (now : Nat)
    (hb : isUserBlockedIn blockedIds sender = false) :
    ((isRateLimitedS st.rl sender .direct now).1.limited = false →
      handleDirectMessage blockedIds registry st sender uname target msg now false
        = (.errMessageFailed, { st with rl := (isRateLimitedS st.rl sender .direct now).2 }) ∧
      (handleDirectMessage blockedIds registry st sender uname target msg now true).2
        = { rl := incrementMessageCountS (isRateLimitedS st.rl sender .direct now).2
              sender .direct,
            store := st.store ++ [mkDirectRecord sender target msg now] }) ∧
    ((isRateLimitedS st.rl sender .global now).1.limited = false →
      handleGlobalMessage blockedIds st sender uname msg now false
        = (.errMessageFailed, { st with rl := (isRateLimitedS st.rl sender .global now).2 }) ∧
      (handleGlobalMessage blockedIds st sender uname msg now true).2
        = { rl := incrementMessageCountS (isRateLimitedS st.rl sender .global now).2
              sender .global,
            store := st.store ++ [mkGlobalRecord sender msg now] }) ∧
    ((isRateLimitedS st.rl sender .room now).1.limited = false →
      handleRoomMessage blockedIds st sender uname target msg now false
        = (.errMessageFailed, { st with rl := (isRateLimitedS st.rl sender .room now).2 }) ∧
      (handleRoomMessage blockedIds st sender uname target msg now true).2
        = { rl := incrementMessageCountS (isRateLimitedS st.rl sender .room now).2
              sender .room,
            store := st.store ++ [mkRoomRecord sender target msg now] }) := by
  refine ⟨fun hr => ⟨?_, ?_⟩, fun hr => ⟨?_, ?_⟩, fun hr => ⟨?_, ?_⟩⟩
  · simp [handleDirectMessage, hb, hr]
  · cases hfind : findSocketByUserId registry target <;>
      simp [handleDirectMessage, hb, hr, hfind]
  · simp [handleGlobalMessage, hb, hr]
  · simp [handleGlobalMessage, hb, hr]
  · simp [handleRoomMessage, hb, hr]
  · simp [handleRoomMessage, hb, hr]

theorem claim_C4_witness :
    handleGlobalMessage [] ⟨[], []⟩ "bob" "b" "hi" 5 false
      = (.errMessageFailed, { rl := (isRateLimitedS [] "bob" .global 5).2, store := [] }) ∧
    (handleGlobalMessage [] ⟨[], []⟩ "bob" "b" "hi" 5 true).2
      = { rl := incrementMessageCountS (isRateLimitedS [] "bob" .global 5).2 "bob" .global,
          store := [mkGlobalRecord "bob" "hi" 5] } := by
  have h := (claim_C4_persist_failure_no_quota [] Registry.empty ⟨[], []⟩
    "bob" "b" "x" "hi" 5 (by decide)).2.1 (by decide)
  exact ⟨h.1, by simpa using h.2⟩

/-! ### End-to-end scenario A (C1): eleven global sends within one minute -/

/-- A sequence of `globalMessage` send attempts (message text and send time),
all with successful persistence, threading the server state. -/
def sendGlobalSeq (blockedIds : List String) (senderId senderUsername : String)
    (msgs : List (String × Nat)) (st : ServerState) :
    List SendOutcome × ServerState :=
  match msgs with
  | [] => ([], st)
  | (m, t) :: rest =>
    let r := handleGlobalMessage blockedIds st senderId senderUsername m t true
    let rs := sendGlobalSeq blockedIds senderId senderUsername rest r.2
    (r.1 :: rs.1, rs.2)

theorem handleGlobalMessage_allowed (blockedIds : List String) (st : ServerState)
    (sender uname m : String) (t k t1 : Nat)
    (hb : isUserBlockedIn blockedIds sender = false)
    (hc : lookupCounter st.rl sender .global = some ⟨k, t1, none⟩)
    (hk : k < 10) (ht : t ≤ t1 + 60000) :
    handleGlobalMessage blockedIds st sender uname m t true
      = (.sent (.toRoom "global") ⟨sender, uname, m, t⟩,
         { rl := incrementMessageCountS (isRateLimitedS st.rl sender .global t).2
             sender .global,
           store := st.store ++ [mkGlobalRecord sender m t] }) ∧
    lookupCounter (handleGlobalMessage blockedIds st sender uname m t true).2.rl
      sender .global = some ⟨k + 1, t1, none⟩ := by
  have hstep := checkCommit_step st.rl sender .global k t1 t hc
    (by simpa [RATE_LIMITS] using hk) (by simpa [RATE_LIMITS] using ht)
  constructor
  · simp [handleGlobalMessage, hb, hstep.1]
  · simp only [handleGlobalMessage, hb, Bool.false_eq_true, if_false, hstep.1,
      if_true]
    simpa using hstep.2

theorem handleGlobalMessage_fresh (blockedIds : List String) (st : ServerState)
    (sender uname m : String) (t : Nat)
    (hb : isUserBlockedIn blockedIds sender = false)
    (hc : lookupCounter st.rl sender .global = none) :
    handleGlobalMessage blockedIds st sender uname m t true
      = (.sent (.toRoom "global") ⟨sender, uname, m, t⟩,
         { rl := incrementMessageCountS (isRateLimitedS st.rl sender .global t).2
             sender .global,
           store := st.store ++ [mkGlobalRecord sender m t] }) ∧
    lookupCounter (handleGlobalMessage blockedIds st sender uname m t true).2.rl
      sender .global = some ⟨1, t, none⟩ := by
  have hstep := checkCommit_step_fresh st.rl sender .global t hc
  constructor
  · simp [handleGlobalMessage, hb, hstep.1]
  · simp only [handleGlobalMessage, hb, Bool.false_eq_true, if_false, hstep.1,
      if_true]
    simpa using hstep.2

theorem handleGlobalMessage_violation (blockedIds : List String) (st : ServerState)
    (sender uname m : String) (t k t1 : Nat)
    (hb : isUserBlockedIn blockedIds sender = false)
    (hc : lookupCounter st.rl sender .global = some ⟨k, t1, none⟩)
    (hk : 10 ≤ k) (ht : t ≤ t1 + 60000) :
    handleGlobalMessage blockedIds st sender uname m t true
      = (.errRateLimited (some 600),
         { st with rl := (isRateLimitedS st.rl sender .global t).2 }) := by
  have hv := check_violation_step st.rl sender .global k t1 t 600000 hc rfl
    (by simpa [RATE_LIMITS] using hk) (by simpa [RATE_LIMITS] using ht)
  have h600 : ceilDiv1000 600000 = 600 := by norm_num [ceilDiv1000]
  simp [handleGlobalMessage, hb, hv.1, h600]

/-- While the counter stays below the limit, every send in the window is
delivered to the global room, persisted in order, and commits one unit of
quota. -/
theorem sendGlobalSeq_allowed (blockedIds : List String) (sender uname : String)
    (msgs : List (String × Nat)) :
    ∀ (st : ServerState) (k t1 : Nat),
    isUserBlockedIn blockedIds sender = false →
    lookupCounter st.rl sender .global = some ⟨k, t1, none⟩ →
    k + msgs.length ≤ 10 →
    (∀ p ∈ msgs, p.2 ≤ t1 + 60000) →
    (sendGlobalSeq blockedIds sender uname msgs st).1
      = msgs.map (fun p => .sent (.toRoom "global") ⟨sender, uname, p.1, p.2⟩) ∧
    (sendGlobalSeq blockedIds sender uname msgs st).2.store
      = st.store ++ msgs.map (fun p => mkGlobalRecord sender p.1 p.2) ∧
    lookupCounter (sendGlobalSeq blockedIds sender uname msgs st).2.rl
      sender .global = some ⟨k + msgs.length, t1, none⟩ := by
  induction msgs with
  | nil =>
    intro st k t1 _ hc _ _
    simpa [sendGlobalSeq] using hc
  | cons p rest ih =>
    intro st k t1 hb hc hlen hts
    obtain ⟨m, t⟩ := p
    have hk : k < 10 := by
      simp only [List.length_cons] at hlen
      omega
    have hstep := handleGlobalMessage_allowed blockedIds st sender uname m t k t1
      hb hc hk (hts (m, t) (by simp))
    have hih := ih (handleGlobalMessage blockedIds st sender uname m t true).2
      (k + 1) t1 hb hstep.2 (by simp only [List.length_cons] at hlen; omega)
      (fun p2 hp2 => hts p2 (by simp [hp2]))
    refine ⟨?_, ?_, ?_⟩
    · simp only [sendGlobalSeq, List.map_cons]
      rw [hih.1, hstep.1]
    · simp only [sendGlobalSeq, List.map_cons]
      rw [hih.2.1, hstep.1]
      simp
    · simp only [sendGlobalSeq]
      rw [hih.2.2]
      have : k + 1 + rest.length = k + (rest.length + 1) := by omega
      simp only [List.length_cons, this]

theorem sendGlobalSeq_append (blockedIds : List String) (sender uname : String)
    (xs ys : List (String × Nat)) :
    ∀ st : ServerState,
    sendGlobalSeq blockedIds sender uname (xs ++ ys) st
      = ((sendGlobalSeq blockedIds sender uname xs st).1 ++
          (sendGlobalSeq blockedIds sender uname ys
            (sendGlobalSeq blockedIds sender uname xs st).2).1,
         (sendGlobalSeq blockedIds sender uname ys
           (sendGlobalSeq blockedIds sender uname xs st).2).2) := by
  induction xs with
  | nil => intro st; simp [sendGlobalSeq]
  | cons p rest ih =>
    intro st
    obtain ⟨m, t⟩ := p
    simp only [List.cons_append, sendGlobalSeq, List.append_eq, ih]

/-- C1 (scenario A): from a fresh rate-limit state, a non-blocked user sends
eleven global messages within one minute (all persistence succeeding).  The
first ten are persisted in order and fanned out to the "global" room; the
eleventh is rejected with `rate_limited` carrying
`retryAfterSeconds = ceil(600000/1000) = 600` and is not persisted. -/
theorem claim_C1_global_eleven_sends (blockedIds : List String)
    (sender uname : String) (first lastp : String × Nat)
    (mid : List (String × Nat)) (st0 : ServerState)
    (hb : isUserBlockedIn blockedIds sender = false)
    (h0 : lookupCounter st0.rl sender .global = none)
    (hmid : mid.length = 9)
    (hts : ∀ p ∈ mid, p.2 ≤ first.2 + 60000)
    (hlast : lastp.2 ≤ first.2 + 60000) :
    (sendGlobalSeq blockedIds sender uname (first :: mid ++ [lastp]) st0).1
      = (first :: mid).map
          (fun p => .sent (.toRoom "global") ⟨sender, uname, p.1, p.2⟩)
        ++ [.errRateLimited (some 600)] ∧
    (sendGlobalSeq blockedIds sender uname (first :: mid ++ [lastp]) st0).2.store
      = st0.store ++ (first :: mid).map (fun p => mkGlobalRecord sender p.1 p.2) := by
  obtain ⟨m1, t1⟩ := first
  obtain ⟨mL, tL⟩ := lastp
  have hfresh := handleGlobalMessage_fresh blockedIds st0 sender uname m1 t1 hb h0
  have hmidseq := sendGlobalSeq_allowed blockedIds sender uname mid
    (handleGlobalMessage blockedIds st0 sender uname m1 t1 true).2 1 t1 hb
    hfresh.2 (by omega) hts
  have hc10 : lookupCounter
      (sendGlobalSeq blockedIds sender uname mid
        (handleGlobalMessage blockedIds st0 sender uname m1 t1 true).2).2.rl
      sender .global = some ⟨10, t1, none⟩ := by
    rw [hmidseq.2.2, hmid]
  have hviol := handleGlobalMessage_violation blockedIds
    (sendGlobalSeq blockedIds sender uname mid
      (handleGlobalMessage blockedIds st0 sender uname m1 t1 true).2).2
    sender uname mL tL 10 t1 hb hc10 (Nat.le_refl _) hlast
  constructor
  · simp only [sendGlobalSeq, List.append_eq, sendGlobalSeq_append, List.map_cons,
      List.cons_append]
    rw [hmidseq.1]
    simp only [sendGlobalSeq, hviol]
    rw [hfresh.1]
  · simp only [sendGlobalSeq, List.append_eq, sendGlobalSeq_append, List.map_cons]
    simp only [sendGlobalSeq, hviol]
    simp only [hmidseq.2.1]
    rw [hfresh.1]
    simp

theorem claim_C1_witness :
    (sendGlobalSeq [] "alice" "Alice"
        (("g1", 0) :: [("g2", 1), ("g3", 2), ("g4", 3), ("g5", 4), ("g6", 5),
          ("g7", 6), ("g8", 7), ("g9", 8), ("g10", 9)] ++ [("g11", 50000)])
        ⟨[], []⟩).1
      = (("g1", 0) :: [("g2", 1), ("g3", 2), ("g4", 3), ("g5", 4), ("g6", 5),
          ("g7", 6), ("g8", 7), ("g9", 8), ("g10", 9)]).map
          (fun p => .sent (.toRoom "global") ⟨"alice", "Alice", p.1, p.2⟩)
        ++ [.errRateLimited (some 600)] ∧
    (sendGlobalSeq [] "alice" "Alice"
        (("g1", 0) :: [("g2", 1), ("g3", 2), ("g4", 3), ("g5", 4), ("g6", 5),
          ("g7", 6), ("g8", 7), ("g9", 8), ("g10", 9)] ++ [("g11", 50000)])
        ⟨[], []⟩).2.store
      = ([] : List StoredMessage) ++
        (("g1", 0) :: [("g2", 1), ("g3", 2), ("g4", 3), ("g5", 4), ("g6", 5),
          ("g7", 6), ("g8", 7), ("g9", 8), ("g10", 9)]).map
          (fun p => mkGlobalRecord "alice" p.1 p.2) :=
  claim_C1_global_eleven_sends [] "alice" "Alice" ("g1", 0) ("g11", 50000)
    [("g2", 1), ("g3", 2), ("g4", 3), ("g5", 4), ("g6", 5),
     ("g7", 6), ("g8", 7), ("g9", 8), ("g10", 9)] ⟨[], []⟩
    (by decide) rfl (by decide) (by decide) (by decide)

/-! ### Presence reconciler (`getAugmentedUserLists`, index.ts) -/

/-- A persisted user row as returned by `chatService.getAllUsers()`. -/
structure DbUser where
  id : String
  username : Option String
  is_online : Bool
  last_seen : Nat
deriving DecidableEq

/-- The working entries of the `augmentedUsers` map (a `DbUser` with the
username forced to a string). -/
structure AugmentedUser where
  id : String
  username : String
  is_online : Bool
  last_seen : Nat
deriving DecidableEq

/-- The `{id, username}` shape emitted to clients. -/
structure ClientUser where
  id : String
  username : String
deriving DecidableEq

/-- JS `a || b` on an optional string: empty string and undefined are falsy. -/
def jsStrOr (a : Option String) (b : String) : String :=
  match a with
  | some v => if v = "" then b else v
  | none => b

/-- Step 1 of `getAugmentedUserLists`: populate the working map from the DB
rows, skipping rows with a falsy id, forcing the username to a string and
assuming offline initially. -/
def seedLoop (db : List DbUser) (acc : List (String × AugmentedUser)) :
    List (String × AugmentedUser) :=
  match db with
  | [] => acc
  | dbUser :: rest =>
    seedLoop rest
      (if dbUser.id = "" then acc
       else alInsert acc dbUser.id
         ⟨dbUser.id, jsStrOr dbUser.username dbUser.id, false, dbUser.last_seen⟩)

/-- Step 2 body of `getAugmentedUserLists` for one live (userId, socket)
entry: skip falsy ids, force existing entries online (refreshing
`last_seen`), overwrite a diverging username with the socket's live one, and
synthesize an online entry for a userId with no DB row. -/
def augmentStep (now : Nat) (acc : List (String × AugmentedUser))
    (entry : String × SocketData) : List (String × AugmentedUser) :=
  if entry.1 = "" then acc
  else
    let usernameFromSocket :=
      if entry.2.username = "" then entry.1 else entry.2.username
    match alLookup acc entry.1 with
    | some existingUser =>
      let u1 := if existingUser.is_online = false
                then { existingUser with is_online := true, last_seen := now }
                else existingUser
      let u2 := if u1.username ≠ usernameFromSocket
                then { u1 with username := usernameFromSocket }
                else u1
      alInsert acc entry.1 u2
    | none =>
      alInsert acc entry.1 ⟨entry.1, usernameFromSocket, true, now⟩

/-- Step 2 of `getAugmentedUserLists`: iterate the live socket map. -/
def augmentLoop (now : Nat) (socks : List (String × SocketData))
    (acc : List (String × AugmentedUser)) : List (String × AugmentedUser) :=
  match socks with
  | [] => acc
  | entry :: rest => augmentLoop now rest (augmentStep now acc entry)

/-- `getAugmentedUserLists(logger, chatService, userSockets)`: returns the
(onlineUsers, offlineUsers) partition of the reconciled working map. -/
def getAugmentedUserListsS (db : List DbUser)
    (userSocketsMap : List (String × SocketData)) (now : Nat) :
    List ClientUser × List ClientUser :=
  let augmentedUsers := augmentLoop now userSocketsMap (seedLoop db [])
  let finalUserList := augmentedUsers.map Prod.snd
  ((finalUserList.filter (fun v => v.is_online)).map
     (fun v => ⟨v.id, if v.username = "" then v.id else v.username⟩),
   (finalUserList.filter (fun v => !v.is_online)).map
     (fun v => ⟨v.id, if v.username = "" then v.id else v.username⟩))

theorem augmentStep_establishes_online (now : Nat)
    (acc : List (String × AugmentedUser)) (u : String) (s : SocketData)
    (hu : u ≠ "") :
    ∃ e2, alLookup (augmentStep now acc (u, s)) u = some e2 ∧
      e2.is_online = true := by
  cases h2 : alLookup acc u with
  | none =>
    refine ⟨⟨u, if s.username = "" then u else s.username, true, now⟩, ?_, rfl⟩
    simp only [augmentStep, if_neg hu, h2]
    exact alLookup_alInsert_self ..
  | some e0 =>
    simp only [augmentStep, if_neg hu, h2]
    refine ⟨_, alLookup_alInsert_self .., ?_⟩
    by_cases hon : e0.is_online = false
    · simp only [if_pos hon]
      by_cases hname : ({ e0 with is_online := true, last_seen := now }
          : AugmentedUser).username ≠ (if s.username = "" then u else s.username)
      · simp [hname]
      · simp [hname]
    · simp only [if_neg hon]
      have hon2 : e0.is_online = true := by
        cases hb : e0.is_online
        · exact absurd hb hon
        · rfl
      by_cases hname : e0.username ≠ (if s.username = "" then u else s.username)
      · simp [hname, hon2]
      · simp [hname, hon2]

theorem augmentStep_preserves_online (now : Nat)
    (acc : List (String × AugmentedUser)) (entry : String × SocketData)
    (u : String) (e : AugmentedUser)
    (h : alLookup acc u = some e) (he : e.is_online = true) :
    ∃ e2, alLookup (augmentStep now acc entry) u = some e2 ∧
      e2.is_online = true := by
  obtain ⟨k, s⟩ := entry
  by_cases hk0 : k = ""
  · exact ⟨e, by simpa [augmentStep, hk0] using h, he⟩
  · by_cases hku : k = u
    · subst hku
      exact augmentStep_establishes_online now acc k s hk0
    · cases h2 : alLookup acc k with
      | none =>
        refine ⟨e, ?_, he⟩
        simp only [augmentStep, if_neg hk0, h2]
        rw [alLookup_alInsert_ne _ _ _ _ (fun hh => hku hh.symm)]
        exact h
      | some e0 =>
        refine ⟨e, ?_, he⟩
        simp only [augmentStep, if_neg hk0, h2]
        rw [alLookup_alInsert_ne _ _ _ _ (fun hh => hku hh.symm)]
        exact h

theorem augmentLoop_preserves_online (now : Nat)
    (socks : List (String × SocketData)) :
    ∀ (acc : List (String × AugmentedUser)) (u : String) (e : AugmentedUser),
    alLookup acc u = some e → e.is_online = true →
    ∃ e2, alLookup (augmentLoop now socks acc) u = some e2 ∧
      e2.is_online = true := by
  induction socks with
  | nil => exact fun acc u e h he => ⟨e, h, he⟩
  | cons entry rest ih =>
    intro acc u e h he
    obtain ⟨e2, h2, he2⟩ := augmentStep_preserves_online now acc entry u e h he
    exact ih (augmentStep now acc entry) u e2 h2 he2

theorem augmentLoop_establishes_online (now : Nat)
    (socks : List (String × SocketData)) :
    ∀ (acc : List (String × AugmentedUser)) (u : String) (s : SocketData),
    (u, s) ∈ socks → u ≠ "" →
    ∃ e2, alLookup (augmentLoop now socks acc) u = some e2 ∧
      e2.is_online = true := by
  induction socks with
  | nil => intro acc u s h; simp at h
  | cons entry rest ih =>
    intro acc u s h hu
    rcases List.mem_cons.mp h with h2 | h2
    · obtain ⟨e2, h3, he3⟩ := augmentStep_establishes_online now acc u s hu
      have h4 : augmentStep now acc (u, s) = augmentStep now acc entry := by
        rw [h2]
      rw [h4] at h3
      exact augmentLoop_preserves_online now rest (augmentStep now acc entry)
        u e2 h3 he3
    · exact ih (augmentStep now acc entry) u s h2 hu

theorem augmentStep_nodup (now : Nat) (acc : List (String × AugmentedUser))
    (entry : String × SocketData) (h : (alKeys acc).Nodup) :
    (alKeys (augmentStep now acc entry)).Nodup := by
  by_cases hk0 : entry.1 = ""
  · simpa [augmentStep, hk0] using h
  · cases h2 : alLookup acc entry.1 with
    | none =>
      simp only [augmentStep, if_neg hk0, h2]
      exact alKeys_nodup_alInsert _ _ _ h
    | some e0 =>
      simp only [augmentStep, if_neg hk0, h2]
      exact alKeys_nodup_alInsert _ _ _ h

theorem augmentLoop_nodup (now : Nat) (socks : List (String × SocketData)) :
    ∀ acc : List (String × AugmentedUser), (alKeys acc).Nodup →
    (alKeys (augmentLoop now socks acc)).Nodup := by
  induction socks with
  | nil => exact fun acc h => h
  | cons entry rest ih =>
    intro acc h
    exact ih (augmentStep now acc entry) (augmentStep_nodup now acc entry h)

theorem seedLoop_nodup (db : List DbUser) :
    ∀ acc : List (String × AugmentedUser), (alKeys acc).Nodup →
    (alKeys (seedLoop db acc)).Nodup := by
  induction db with
  | nil => exact fun acc h => h
  | cons dbUser rest ih =>
    intro acc h
    by_cases hid : dbUser.id = ""
    · simpa [seedLoop, hid] using ih acc h
    · simp only [seedLoop, if_neg hid]
      exact ih _ (alKeys_nodup_alInsert _ _ _ h)

theorem seedLoop_ids (db : List DbUser) :
    ∀ acc : List (String × AugmentedUser),
    (∀ p ∈ acc, (Prod.snd p).id = p.1) →
    ∀ p ∈ seedLoop db acc, (Prod.snd p).id = p.1 := by
  induction db with
  | nil => exact fun acc h => h
  | cons dbUser rest ih =>
    intro acc h
    by_cases hid : dbUser.id = ""
    · simpa [seedLoop, hid] using ih acc h
    · simp only [seedLoop, if_neg hid]
      refine ih _ ?_
      intro p hp
      rcases mem_alInsert _ _ _ _ hp with h3 | h3
      · subst h3
        rfl
      · exact h p h3

theorem augmentStep_ids (now : Nat) (acc : List (String × AugmentedUser))
    (entry : String × SocketData)
    (h : ∀ p ∈ acc, (Prod.snd p).id = p.1) :
    ∀ p ∈ augmentStep now acc entry, (Prod.snd p).id = p.1 := by
  by_cases hk0 : entry.1 = ""
  · simpa [augmentStep, hk0] using h
  · cases h2 : alLookup acc entry.1 with
    | none =>
      simp only [augmentStep, if_neg hk0, h2]
      intro p hp
      rcases mem_alInsert _ _ _ _ hp with h3 | h3
      · subst h3
        rfl
      · exact h p h3
    | some e0 =>
      have he0 : e0.id = entry.1 :=
        h (entry.1, e0) (mem_of_alLookup_eq_some _ _ _ h2)
      simp only [augmentStep, if_neg hk0, h2]
      intro p hp
      rcases mem_alInsert _ _ _ _ hp with h3 | h3
      · subst h3
        have hh : ∀ x : AugmentedUser, x.id = entry.1 →
            (if x.username
                ≠ (if entry.2.username = "" then entry.1 else entry.2.username)
             then { x with username :=
                (if entry.2.username = "" then entry.1 else entry.2.username) }
             else x).id = entry.1 := by
          intro x hx
          by_cases hc : x.username
              ≠ (if entry.2.username = "" then entry.1 else entry.2.username) <;>
            simp [hc, hx]
        refine hh _ ?_
        by_cases hon : e0.is_online = false <;> simp [hon, he0]
      · exact h p h3

theorem augmentLoop_ids (now : Nat) (socks : List (String × SocketData)) :
    ∀ acc : List (String × AugmentedUser),
    (∀ p ∈ acc, (Prod.snd p).id = p.1) →
    ∀ p ∈ augmentLoop now socks acc, (Prod.snd p).id = p.1 := by
  induction socks with
  | nil => exact fun acc h => h
  | cons entry rest ih =>
    intro acc h
    exact ih (augmentStep now acc entry) (augmentStep_ids now acc entry h)

/-- C5: a persisted user marked offline in the store whose id has a live
connection in the registry ends up in the online list and never in the
offline list — live connection presence wins over the persisted flag.
(The working map seeds every DB row as offline and then forces every
live-socket user online; users with a falsy empty-string id are skipped by
the code's defensive checks, hence the nonempty-id hypothesis.) -/
theorem claim_C5_live_presence_wins (db : List DbUser)
    (userSocketsMap : List (String × SocketData)) (now : Nat) (u : String)
    (s : SocketData) (du : DbUser)
    (hdu : du ∈ db) (hid : du.id = u) (hoff : du.is_online = false)
    (hmem : (u, s) ∈ userSocketsMap) (hu : u ≠ "") :
    u ∈ (getAugmentedUserListsS db userSocketsMap now).1.map ClientUser.id ∧
    u ∉ (getAugmentedUserListsS db userSocketsMap now).2.map ClientUser.id := by
  obtain ⟨e, he, heon⟩ :=
    augmentLoop_establishes_online now userSocketsMap (seedLoop db []) u s hmem hu
  have hND := augmentLoop_nodup now userSocketsMap (seedLoop db [])
    (seedLoop_nodup db [] (by simp [alKeys]))
  have hIDs := augmentLoop_ids now userSocketsMap (seedLoop db [])
    (seedLoop_ids db [] (fun p hp => by simp at hp))
  have hmemA : (u, e) ∈ augmentLoop now userSocketsMap (seedLoop db []) :=
    mem_of_alLookup_eq_some _ _ _ he
  have heid : e.id = u := hIDs (u, e) hmemA
  constructor
  · simp only [getAugmentedUserListsS, List.mem_map]
    refine ⟨⟨e.id, if e.username = "" then e.id else e.username⟩, ?_, heid⟩
    refine ⟨e, ?_, rfl⟩
    refine List.mem_filter.mpr ⟨?_, by simp [heon]⟩
    exact List.mem_map.mpr ⟨(u, e), hmemA, rfl⟩
  · intro hcontra
    simp only [getAugmentedUserListsS, List.mem_map] at hcontra
    obtain ⟨cu, hcu, hcuid⟩ := hcontra
    obtain ⟨v, hvfil, hvcu⟩ := hcu
    have hvmem := List.mem_filter.mp hvfil
    have hvid : v.id = u := by
      rw [← hvcu] at hcuid
      simpa using hcuid
    obtain ⟨⟨pk, pv⟩, hpA, hpv⟩ := List.mem_map.mp hvmem.1
    simp only at hpv
    have h5 := hIDs (pk, pv) hpA
    simp only at h5
    have hpk : pk = u := by
      rw [← h5, hpv]
      exact hvid
    have hlook := alLookup_eq_of_mem_nodup _ pk pv hND hpA
    rw [hpk, he] at hlook
    injection hlook with hev
    have hvoff := hvmem.2
    rw [← hpv, ← hev] at hvoff
    simp [heon] at hvoff

theorem claim_C5_witness :
    "carol" ∈ (getAugmentedUserListsS [⟨"carol", some "Carol", false, 0⟩]
      [("carol", ⟨"s1", "Carol"⟩)] 5).1.map ClientUser.id ∧
    "carol" ∉ (getAugmentedUserListsS [⟨"carol", some "Carol", false, 0⟩]
      [("carol", ⟨"s1", "Carol"⟩)] 5).2.map ClientUser.id :=
  claim_C5_live_presence_wins [⟨"carol", some "Carol", false, 0⟩]
    [("carol", ⟨"s1", "Carol"⟩)] 5 "carol" ⟨"s1", "Carol"⟩
    ⟨"carol", some "Carol", false, 0⟩ (by decide) rfl rfl (by decide) (by decide)

/-! ### History retrieval (chatService.ts): order by created_at desc, limit -/

/-- Insertion step of the descending-by-`created_at` ordering that the
Supabase query `order("created_at", { ascending: false })` applies. -/
def newestFirstInsert (m : StoredMessage) : List StoredMessage → List StoredMessage
  | [] => [m]
  | x :: xs =>
    if x.created_at ≤ m.created_at then m :: x :: xs
    else x :: newestFirstInsert m xs

/-- Sort newest-first (descending `created_at`), modelling the store's
`order by created_at desc`. -/
def sortNewestFirst : List StoredMessage → List StoredMessage
  | [] => []
  | x :: xs => newestFirstInsert x (sortNewestFirst xs)

/-- `getDirectMessageHistory(userId1, userId2, limit = 50)`: the rows between
the two users, newest first, at most `limit` of them.  (The Supabase `or`
filter of approach 1; the fallback approach 2 filters down to the same
predicate.) -/
def getDirectMessageHistoryS (store : List StoredMessage)
    (userId1 userId2 : String) (limit : Nat := 50) : List StoredMessage :=
  (sortNewestFirst (store.filter (fun m =>
    (m.sender_id == userId1 && m.recipient_id == some userId2) ||
    (m.sender_id == userId2 && m.recipient_id == some userId1)))).take limit

/-- `getGlobalChatHistory(limit = 100)`: rows with `room_id = "global"`. -/
def getGlobalChatHistoryS (store : List StoredMessage) (limit : Nat := 100) :
    List StoredMessage :=
  (sortNewestFirst (store.filter (fun m => m.room_id == some "global"))).take limit

/-- `getRoomMessageHistory(roomId, limit = 100)`. -/
def getRoomMessageHistoryS (store : List StoredMessage) (roomId : String)
    (limit : Nat := 100) : List StoredMessage :=
  (sortNewestFirst (store.filter (fun m => m.room_id == some roomId))).take limit

/-- The `getDirectMessageHistory` socket handler: a pure read — it touches
neither the rate limiter nor the blocklist and emits the service result
as-is (no reordering). -/
def handleGetDirectMessageHistory (blockedIds : List String) (st : ServerState)
    (userId otherUserId : String) : List StoredMessage × ServerState :=
  (getDirectMessageHistoryS st.store userId otherUserId, st)

/-- The `getRoomHistory` socket handler: likewise a pure read. -/
def handleGetRoomHistory (blockedIds : List String) (st : ServerState)
    (roomId : String) : List StoredMessage × ServerState :=
  (getRoomMessageHistoryS st.store roomId, st)

theorem mem_newestFirstInsert (m x : StoredMessage) (l : List StoredMessage)
    (h : x ∈ newestFirstInsert m l) : x = m ∨ x ∈ l := by
  induction l with
  | nil => simpa [newestFirstInsert] using h
  | cons y ys ih =>
    by_cases hc : y.created_at ≤ m.created_at
    · simp only [newestFirstInsert, if_pos hc] at h
      rcases List.mem_cons.mp h with h2 | h2
      · exact Or.inl h2
      · exact Or.inr h2
    · simp only [newestFirstInsert, if_neg hc] at h
      rcases List.mem_cons.mp h with h2 | h2
      · exact Or.inr (by simp [h2])
      · rcases ih h2 with h3 | h3
        · exact Or.inl h3
        · exact Or.inr (by simp [h3])

theorem pairwise_newestFirstInsert (m : StoredMessage) (l : List StoredMessage)
    (h : l.Pairwise (fun a b => b.created_at ≤ a.created_at)) :
    (newestFirstInsert m l).Pairwise (fun a b => b.created_at ≤ a.created_at) := by
  induction l with
  | nil => simp [newestFirstInsert]
  | cons x xs ih =>
    have hx := (List.pairwise_cons.mp h).1
    have hxs := (List.pairwise_cons.mp h).2
    by_cases hc : x.created_at ≤ m.created_at
    · simp only [newestFirstInsert, if_pos hc]
      refine List.pairwise_cons.mpr ⟨?_, h⟩
      intro y hy
      rcases List.mem_cons.mp hy with h2 | h2
      · rw [h2]
        exact hc
      · exact Nat.le_trans (hx y h2) hc
    · simp only [newestFirstInsert, if_neg hc]
      refine List.pairwise_cons.mpr ⟨?_, ih hxs⟩
      intro y hy
      rcases mem_newestFirstInsert m y xs hy with h2 | h2
      · rw [h2]
        omega
      · exact hx y h2

theorem pairwise_sortNewestFirst (l : List StoredMessage) :
    (sortNewestFirst l).Pairwise (fun a b => b.created_at ≤ a.created_at) := by
  induction l with
  | nil => simp [sortNewestFirst]
  | cons x xs ih => exact pairwise_newestFirstInsert x (sortNewestFirst xs) ih

/-- Counterexample to C6 as stated: with two global messages at times 1000
and 2000, the history returned to the caller is `[2000, 1000]` — newest
first, not oldest first; no server-side reversal happens. -/
theorem claim_C6_counterexample :
    (getGlobalChatHistoryS
        [⟨"a", none, some "global", "first", 1000⟩,
         ⟨"b", none, some "global", "second", 2000⟩]).map StoredMessage.created_at
      = [2000, 1000] ∧
    ¬ (getGlobalChatHistoryS
        [⟨"a", none, some "global", "first", 1000⟩,
         ⟨"b", none, some "global", "second", 2000⟩]).Pairwise
        (fun a b => a.created_at ≤ b.created_at) := by
  decide

/-- C6 (amended): every history retrieval is a bounded pure read — at most
50 messages for direct, 100 for room/global — ordered newest-first (by
`created_at` descending) both at the store boundary and as returned to the
caller (there is no server-side reversal to oldest-first; clients re-sort),
and the handlers perform no rate-limit check and no blocklist check: the
server state is returned unchanged and the result ignores the blocklist. -/
theorem claim_C6_history_bounded_newest_first (store : List StoredMessage)
    (userId1 userId2 roomId : String) (blockedIds : List String)
    (st : ServerState) :
    (getDirectMessageHistoryS store userId1 userId2).length ≤ 50 ∧
    (getDirectMessageHistoryS store userId1 userId2).Pairwise
      (fun a b => b.created_at ≤ a.created_at) ∧
    (getGlobalChatHistoryS store).length ≤ 100 ∧
    (getGlobalChatHistoryS store).Pairwise
      (fun a b => b.created_at ≤ a.created_at) ∧
    (getRoomMessageHistoryS store roomId).length ≤ 100 ∧
    (getRoomMessageHistoryS store roomId).Pairwise
      (fun a b => b.created_at ≤ a.created_at) ∧
    handleGetDirectMessageHistory blockedIds st userId1 userId2
      = (getDirectMessageHistoryS st.store userId1 userId2, st) ∧
    handleGetRoomHistory blockedIds st roomId
      = (getRoomMessageHistoryS st.store roomId, st) := by
  refine ⟨List.length_take_le .., ?_, List.length_take_le .., ?_,
    List.length_take_le .., ?_, rfl, rfl⟩ <;>
    exact List.Pairwise.take (pairwise_sortNewestFirst _)

end AgentChat
